import Mathlib

/-
  Verification development for the Solar-System-Infinite-Dance repository.

  The provided source files (src/main.js and src/unnamed/part_000) contain the
  decorative kinematic orbit demos: per-frame angle advancement, parametric
  elliptical positions, circular trail buffers, and a wall-clock driven
  animation loop.  The gravitational N-body core described by the spec
  (unit scaler, orbital-elements initializer, force evaluator, leapfrog
  integrator, frame stepper) is part of the repository but is not among the
  provided sources; those components are modelled here from the spec, with
  each such definition marked "Modelled from the spec".  The trail buffer and
  the kinematic position formulas are embedded directly from the sources.
-/
namespace SolarDance

open Finset

/-- Vectors in simulation space are triples of real coordinates. -/
abbrev Vec3 := Fin 3 → ℝ

/-- Euclidean dot product of two 3-vectors. -/
def dot (u v : Vec3) : ℝ := ∑ k, u k * v k

/-- Modelled from the spec (section 3): a simulated body carries a mass, a
position and a velocity, all in simulation units. -/
structure Body where
  mass : ℝ
  pos : Vec3
  vel : Vec3

noncomputable section

/-- Modelled from the spec (section 4.3): the softened inverse-cube factor
1 / (dd + eps) ^ 1.5, written with the real square root of the cube. -/
def softFactor (eps : ℝ) (d : Vec3) : ℝ :=
  1 / Real.sqrt ((dot d d + eps) ^ 3)

/-- Gravitational pull of body j on body i, exactly the summand named by the
spec: scaledG * mass j * (pos j - pos i) times the softened inverse-cube
factor of the separation. -/
def gravPull {n : ℕ} (scaledG eps : ℝ) (b : Fin n → Body) (i j : Fin n) : Vec3 :=
  (scaledG * (b j).mass * softFactor eps ((b j).pos - (b i).pos)) • ((b j).pos - (b i).pos)

/-- Unordered index pairs, enumerated as ordered pairs with first component
strictly below the second. -/
def pairSet (n : ℕ) : Finset (Fin n × Fin n) :=
  Finset.univ.filter (fun p => p.1 < p.2)

/-- Modelled from the spec (section 4.3): the two-sided contribution of one
unordered pair (p.1, p.2) to the acceleration buffer.  With dd the separation
pos p.2 - pos p.1 and f its softened inverse-cube factor, entry p.1 gains
scaledG * f * mass p.2 times dd and entry p.2 loses scaledG * f * mass p.1
times dd; every other entry is untouched. -/
def pairContrib {n : ℕ} (scaledG eps : ℝ) (b : Fin n → Body) (p : Fin n × Fin n) :
    Fin n → Vec3 := fun i =>
  (if i = p.1 then (scaledG * softFactor eps ((b p.2).pos - (b p.1).pos) * (b p.2).mass) •
      ((b p.2).pos - (b p.1).pos)
    else 0) +
  (if i = p.2 then -((scaledG * softFactor eps ((b p.2).pos - (b p.1).pos) * (b p.1).mass) •
      ((b p.2).pos - (b p.1).pos))
    else 0)

/-- Modelled from the spec (section 4.3): the force evaluator accumulates,
over every unordered pair, the symmetric pair contribution into a fresh
acceleration buffer. -/
def computeAccels {n : ℕ} (scaledG eps : ℝ) (b : Fin n → Body) : Fin n → Vec3 :=
  ∑ p ∈ pairSet n, pairContrib scaledG eps b p

/-- Modelled from the spec (section 3): the simulation state is the body
sequence, the acceleration buffer carried from the previous step, and the
cumulative simulation time. -/
structure SimState (n : ℕ) where
  bodies : Fin n → Body
  accel : Fin n → Vec3
  simTime : ℝ

/-- Half-kicked velocity of body i: the velocity plus the carried
acceleration times half the timestep. -/
def halfKickVel {n : ℕ} (dt : ℝ) (s : SimState n) (i : Fin n) : Vec3 :=
  (s.bodies i).vel + (dt / 2) • s.accel i

/-- Bodies after the first half kick and the drift: position advanced by the
half-kicked velocity times the timestep. -/
def driftBodies {n : ℕ} (dt : ℝ) (s : SimState n) : Fin n → Body := fun i =>
  { mass := (s.bodies i).mass,
    pos := (s.bodies i).pos + dt • halfKickVel dt s i,
    vel := halfKickVel dt s i }

/-- Modelled from the spec (section 4.4): one kick-drift-kick leapfrog step.
Velocities receive a half kick from the carried acceleration, positions drift
by the half-kicked velocities, the acceleration is recomputed at the drifted
positions, and velocities receive the second half kick from it; the
recomputed buffer is stored for the next call. -/
def step {n : ℕ} (scaledG eps dt : ℝ) (s : SimState n) : SimState n :=
  let newAccel := computeAccels scaledG eps (driftBodies dt s)
  { bodies := fun i =>
      { mass := (driftBodies dt s i).mass,
        pos := (driftBodies dt s i).pos,
        vel := (driftBodies dt s i).vel + (dt / 2) • newAccel i },
    accel := newAccel,
    simTime := s.simTime + dt }

/-- Iterated fixed-step integration. -/
def stepN {n : ℕ} (scaledG eps dt : ℝ) : ℕ → SimState n → SimState n
  | 0, s => s
  | k + 1, s => step scaledG eps dt (stepN scaledG eps dt k s)

/-- Integration across a finite sequence of timesteps, one step per entry. -/
def runSteps {n : ℕ} (scaledG eps : ℝ) (dts : List ℝ) (s : SimState n) : SimState n :=
  dts.foldl (fun st d => step scaledG eps d st) s

/-- Invariant of the leapfrog loop: the carried buffer holds the acceleration
of the current positions. -/
def goodState {n : ℕ} (scaledG eps : ℝ) (s : SimState n) : Prop :=
  s.accel = computeAccels scaledG eps s.bodies

/-- Total system momentum, the mass-weighted velocity sum. -/
def totalMomentum {n : ℕ} (s : SimState n) : Vec3 :=
  ∑ i, (s.bodies i).mass • (s.bodies i).vel

/-- Positions listed after every step of a run. -/
def trajectory {n : ℕ} (scaledG eps : ℝ) (dts : List ℝ) (s : SimState n) :
    List (Fin n → Vec3) :=
  ((dts.scanl (fun st d => step scaledG eps d st) s).map fun st => fun i => (st.bodies i).pos)

/-- Single resting body used as a concrete state for witnesses. -/
def oneBodyState : SimState 1 :=
  { bodies := fun _ => { mass := 1, pos := 0, vel := 0 },
    accel := 0,
    simTime := 0 }

/-- Two coincident bodies used as a concrete state for witnesses; one of them
is moving. -/
def twoBodyState : SimState 2 :=
  { bodies := fun i =>
      { mass := 1, pos := 0, vel := if i = 0 then (fun _ => 1) else 0 },
    accel := 0,
    simTime := 0 }

/-- Modelled from the spec (section 4.2): local perihelion offset of a
secondary body, at distance r along the reference axis. -/
def localOffset (r : ℝ) : Vec3 := fun k => if k = 0 then r else 0

/-- Modelled from the spec (section 4.2): local tangential velocity of a
secondary body, the mean circular speed 2 pi r / T perpendicular to the
reference axis. -/
def localOrbitVel (r T : ℝ) : Vec3 := fun k => if k = 2 then 2 * Real.pi * r / T else 0

/-- Modelled from the spec (sections 4.2 and 9): a secondary body is placed
by adding, component by component, its local offset and local tangential
velocity (computed from its own orbital distance r and period T around the
primary) to the already-computed position and velocity of its primary. -/
def initSecondary (primary : Body) (m r T : ℝ) : Body :=
  { mass := m,
    pos := fun k => primary.pos k + (if k = 0 then r else 0),
    vel := fun k => primary.vel k + (if k = 2 then 2 * Real.pi * r / T else 0) }

/-- Speed scale constant shared by all source variants. -/
def speedScale : ℝ := 7 / 10000

/-- Kinematic per-planet state in the sources: the accumulated orbit angle
and the accumulated global time. -/
structure PlanetKin where
  angle : ℝ
  timeG : ℝ

/-- Embedded from updatePlanets in src/main.js: one update advances the
global time by dt and the angle by speed * speedScale * irrational * dt. -/
def planetUpdate (speed irr dt : ℝ) (st : PlanetKin) : PlanetKin :=
  { angle := st.angle + speed * speedScale * irr * dt,
    timeG := st.timeG + dt }

/-- Finite sequence of kinematic updates. -/
def planetRun (speed irr : ℝ) (dts : List ℝ) (st : PlanetKin) : PlanetKin :=
  dts.foldl (fun s d => planetUpdate speed irr d s) st

/-- Embedded from updatePlanets in src/main.js (planets variant, also the
first document): x = cos(angle) * radius * (1 + 0.1 sin(globalTime * 0.00003
+ idx)). -/
def planetsX (radius idx : ℝ) (st : PlanetKin) : ℝ :=
  Real.cos st.angle * radius * (1 + (1 / 10) * Real.sin (st.timeG * (3 / 100000) + idx))

/-- Embedded from updatePlanets in src/main.js: z = sin(angle) * radius. -/
def planetsZ (radius : ℝ) (st : PlanetKin) : ℝ := Real.sin st.angle * radius

/-- Embedded from updatePlanets in src/main.js: y = 12 sin(angle * 0.5 + idx). -/
def planetsY (idx : ℝ) (st : PlanetKin) : ℝ := 12 * Real.sin (st.angle * (1 / 2) + idx)

/-- Embedded from update in src/main.js (moon-system variant): planet x with
ellipse factor 1 + 0.18 sin(globalTime * 0.000025 + si). -/
def moonSysX (radius si : ℝ) (st : PlanetKin) : ℝ :=
  Real.cos st.angle * radius * (1 + (18 / 100) * Real.sin (st.timeG * (25 / 1000000) + si))

/-- Embedded from update in src/main.js (moon-system variant): planet z. -/
def moonSysZ (radius : ℝ) (st : PlanetKin) : ℝ := Real.sin st.angle * radius

/-- Embedded from update in src/main.js (moon-system variant): planet y =
18 sin(angle * 0.4 + tiltPhase). -/
def moonSysY (tiltPhase : ℝ) (st : PlanetKin) : ℝ :=
  18 * Real.sin (st.angle * (4 / 10) + tiltPhase)

/-- Embedded from update in src/unnamed/part_000: planet x with ellipse
factor 1 + 0.10 sin(globalTime * 0.00002 + si). -/
def part0X (radius si : ℝ) (st : PlanetKin) : ℝ :=
  Real.cos st.angle * radius * (1 + (1 / 10) * Real.sin (st.timeG * (2 / 100000) + si))

/-- Embedded from update in src/unnamed/part_000: planet z. -/
def part0Z (radius : ℝ) (st : PlanetKin) : ℝ := Real.sin st.angle * radius

/-- Embedded from update in src/unnamed/part_000: planet y =
14 sin(angle * 0.4 + tiltPhase). -/
def part0Y (tiltPhase : ℝ) (st : PlanetKin) : ℝ :=
  14 * Real.sin (st.angle * (4 / 10) + tiltPhase)

end

/-- Modelled from the spec (sections 4.5 and 6): frame stepper configuration,
the fixed base timestep, the speed multiplier, and the acceleration factor
that scales wall-clock time. -/
structure StepperConfig where
  baseDt : ℚ
  speedMultiplier : ℚ
  accelFactor : ℚ

/-- Modelled from the spec (section 4.5): from the elapsed wall-clock time,
derive the number of fixed-size sub-steps, at least one, together with the
per-sub-step timestep. -/
def frameStepper (cfg : StepperConfig) (elapsed : ℚ) : ℕ × ℚ :=
  (max 1 ⌈elapsed * cfg.accelFactor / (cfg.baseDt * cfg.speedMultiplier)⌉₊, cfg.baseDt)

/-- Modelled from the spec (section 6): one configuration entry enumerating
a body by physical orbital elements. -/
structure OrbitalConfig where
  name : String
  massFrac : ℚ
  semiMajorAxis : ℚ
  eccentricity : ℚ
  periodYears : ℚ
  inclination : ℚ

/-- Modelled from the spec (section 7): a configuration entry is rejected
with a descriptive message when its mass is zero or negative, its orbital
period non-positive, or its eccentricity at least one. -/
def validateConfig (c : OrbitalConfig) : Except String Unit :=
  if c.massFrac ≤ 0 then Except.error (c.name ++ ": mass must be positive")
  else if c.periodYears ≤ 0 then Except.error (c.name ++ ": orbital period must be positive")
  else if 1 ≤ c.eccentricity then Except.error (c.name ++ ": eccentricity must be below one")
  else Except.ok ()

/-- Modelled from the spec (section 7): initialization validates every entry
in order and, on success, carries the configured masses through unchanged
(no clamping). -/
def initMasses : List OrbitalConfig → Except String (List ℚ)
  | [] => Except.ok []
  | c :: rest =>
    match validateConfig c with
    | Except.error e => Except.error e
    | Except.ok _ =>
      match initMasses rest with
      | Except.error e => Except.error e
      | Except.ok ms => Except.ok (c.massFrac :: ms)

/-- Invalid configuration entry (zero mass) used for the C7 witness. -/
def rogueConfig : OrbitalConfig :=
  { name := "Rogue", massFrac := 0, semiMajorAxis := 1, eccentricity := 0,
    periodYears := 1, inclination := 0 }

/-- Trail length constant of the planets variant in src/main.js. -/
def trailLength : ℕ := 2000

/-- Per-body trail state in the sources: the flat coordinate array backing
the trail line, and the index of the most recently written position. -/
structure TrailState where
  positions : ℕ → ℚ
  index : ℕ

/-- Embedded from updatePlanets in src/main.js: advance the circular index
by one modulo trailLength and write the three coordinates of the new
position into the three slots starting at three times the new index. -/
def writeTrail (t : TrailState) (x y z : ℚ) : TrailState :=
  let newIndex := (t.index + 1) % trailLength
  let i3 := newIndex * 3
  { positions :=
      Function.update (Function.update (Function.update t.positions i3 x) (i3 + 1) y)
        (i3 + 2) z,
    index := newIndex }

/-- Squared separations are symmetric, hence so is the softened factor. -/
lemma softFactor_neg (eps : ℝ) (d : Vec3) : softFactor eps (-d) = softFactor eps d := by
  have h : dot (-d) (-d) = dot d d := by
    unfold dot
    refine Finset.sum_congr rfl ?_
    intro k _
    simp [Pi.neg_apply]
  simp [softFactor, h]

/-- Each side of a pair contribution is a gravitational pull: the gaining
side pulls toward p.2, the losing side is the pull of p.1 on p.2. -/
lemma pairContrib_eq {n : ℕ} (scaledG eps : ℝ) (b : Fin n → Body) (p : Fin n × Fin n)
    (i : Fin n) :
    pairContrib scaledG eps b p i =
      (if i = p.1 then gravPull scaledG eps b p.1 p.2 else 0) +
      (if i = p.2 then gravPull scaledG eps b p.2 p.1 else 0) := by
  have hneg : (b p.1).pos - (b p.2).pos = -((b p.2).pos - (b p.1).pos) := by
    funext k; simp [Pi.sub_apply, Pi.neg_apply]
  have h2 : gravPull scaledG eps b p.2 p.1 =
      -((scaledG * softFactor eps ((b p.2).pos - (b p.1).pos) * (b p.1).mass) •
        ((b p.2).pos - (b p.1).pos)) := by
    unfold gravPull
    rw [hneg, softFactor_neg, smul_neg]
    congr 1
    ring_nf
  have h1 : gravPull scaledG eps b p.1 p.2 =
      (scaledG * softFactor eps ((b p.2).pos - (b p.1).pos) * (b p.2).mass) •
        ((b p.2).pos - (b p.1).pos) := by
    unfold gravPull
    congr 1
    ring_nf
  rw [pairContrib, ← h1, ← h2]

/-- Rewriting of a pair contribution so that the receiving index appears as
the first argument of both pulls. -/
lemma pairContrib_apply {n : ℕ} (scaledG eps : ℝ) (b : Fin n → Body) (p : Fin n × Fin n)
    (i : Fin n) :
    pairContrib scaledG eps b p i =
      (if i = p.1 then gravPull scaledG eps b i p.2 else 0) +
      (if i = p.2 then gravPull scaledG eps b i p.1 else 0) := by
  rw [pairContrib_eq]
  by_cases h1 : i = p.1
  · subst h1
    by_cases h3 : p.1 = p.2
    · rw [h3]
    · simp [h3]
  · by_cases h2 : i = p.2
    · subst h2
      simp [h1]
    · simp [h1, h2]

/-- Evaluation of the pair-accumulated buffer at one index: the sum over
unordered pairs collapses to the row sum over all other indices. -/
lemma computeAccels_apply {n : ℕ} (scaledG eps : ℝ) (b : Fin n → Body) (i : Fin n) :
    computeAccels scaledG eps b i =
      ∑ j ∈ Finset.univ.erase i, gravPull scaledG eps b i j := by
  classical
  have happ : computeAccels scaledG eps b i =
      ∑ p ∈ pairSet n, pairContrib scaledG eps b p i :=
    Finset.sum_apply i (pairSet n) _
  rw [happ]
  have hsplit : (∑ p ∈ pairSet n, pairContrib scaledG eps b p i) =
      (∑ p ∈ pairSet n, if i = p.1 then gravPull scaledG eps b i p.2 else 0) +
      (∑ p ∈ pairSet n, if i = p.2 then gravPull scaledG eps b i p.1 else 0) := by
    rw [← Finset.sum_add_distrib]
    exact Finset.sum_congr rfl fun p _ => pairContrib_apply scaledG eps b p i
  rw [hsplit]
  have h1 : (∑ p ∈ pairSet n, if i = p.1 then gravPull scaledG eps b i p.2 else 0) =
      ∑ j, if i < j then gravPull scaledG eps b i j else 0 := by
    rw [pairSet, Finset.sum_filter, Fintype.sum_prod_type]
    have hinner : ∀ a : Fin n,
        (∑ c, if a < c then (if i = a then gravPull scaledG eps b i c else 0) else 0) =
          if i = a then (∑ c, if a < c then gravPull scaledG eps b i c else 0) else 0 := by
      intro a
      by_cases h : i = a <;> simp [h]
    rw [Finset.sum_congr rfl fun a _ => hinner a, Finset.sum_ite_eq]
    simp
  have h2 : (∑ p ∈ pairSet n, if i = p.2 then gravPull scaledG eps b i p.1 else 0) =
      ∑ j, if j < i then gravPull scaledG eps b i j else 0 := by
    rw [pairSet, Finset.sum_filter, Fintype.sum_prod_type]
    have hinner : ∀ a : Fin n,
        (∑ c, if a < c then (if i = c then gravPull scaledG eps b i a else 0) else 0) =
          if a < i then gravPull scaledG eps b i a else 0 := by
      intro a
      have hsw : ∀ c : Fin n,
          (if a < c then (if i = c then gravPull scaledG eps b i a else 0) else 0) =
            if i = c then (if a < c then gravPull scaledG eps b i a else 0) else 0 := by
        intro c
        by_cases h : i = c <;> simp [h]
      rw [Finset.sum_congr rfl fun c _ => hsw c, Finset.sum_ite_eq]
      simp
    exact Finset.sum_congr rfl fun a _ => hinner a
  rw [h1, h2, ← Finset.sum_add_distrib]
  have hjoin : ∀ j : Fin n,
      ((if i < j then gravPull scaledG eps b i j else 0) +
        (if j < i then gravPull scaledG eps b i j else 0)) =
        if j ∈ Finset.univ.erase i then gravPull scaledG eps b i j else 0 := by
    intro j
    rcases lt_trichotomy i j with h | h | h
    · simp [h, not_lt_of_gt h, Finset.mem_erase, h.ne.symm]
    · simp [h]
    · simp [h, not_lt_of_gt h, Finset.mem_erase, h.ne]
  rw [Finset.sum_congr rfl fun j _ => hjoin j]
  exact (Finset.sum_ite_mem _ _ _).trans (by simp)

/-- Third-law cancellation: with masses attached, the modelled pairwise
accelerations sum to the zero vector. -/
lemma mass_weighted_accels_zero {n : ℕ} (scaledG eps : ℝ) (b : Fin n → Body) :
    ∑ i, (b i).mass • computeAccels scaledG eps b i = 0 := by
  classical
  have hpt : ∀ i, (b i).mass • computeAccels scaledG eps b i =
      ∑ p ∈ pairSet n, (b i).mass • pairContrib scaledG eps b p i := by
    intro i
    rw [show computeAccels scaledG eps b i = ∑ p ∈ pairSet n, pairContrib scaledG eps b p i
      from Finset.sum_apply i (pairSet n) _]
    exact Finset.smul_sum
  rw [Finset.sum_congr rfl fun i _ => hpt i, Finset.sum_comm]
  refine Finset.sum_eq_zero ?_
  intro p hp
  have hlt : p.1 < p.2 := (Finset.mem_filter.mp hp).2
  have hne : p.1 ≠ p.2 := ne_of_lt hlt
  have hterm : ∀ i : Fin n, (b i).mass • pairContrib scaledG eps b p i =
      (if i = p.1 then (b i).mass • ((scaledG * softFactor eps ((b p.2).pos - (b p.1).pos) *
          (b p.2).mass) • ((b p.2).pos - (b p.1).pos)) else 0) +
      (if i = p.2 then (b i).mass • (-((scaledG * softFactor eps ((b p.2).pos - (b p.1).pos) *
          (b p.1).mass) • ((b p.2).pos - (b p.1).pos))) else 0) := by
    intro i
    rw [pairContrib, smul_add]
    congr 1 <;> by_cases h : i = p.1 <;> by_cases h2 : i = p.2 <;> simp [h, h2]
  rw [Finset.sum_congr rfl fun i _ => hterm i, Finset.sum_add_distrib,
    Finset.sum_ite_eq', Finset.sum_ite_eq']
  simp only [Finset.mem_univ, if_pos]
  rw [smul_smul, smul_neg, smul_smul, ← sub_eq_add_neg, ← sub_smul]
  have hz : (b p.1).mass * (scaledG * softFactor eps ((b p.2).pos - (b p.1).pos) * (b p.2).mass) -
      (b p.2).mass * (scaledG * softFactor eps ((b p.2).pos - (b p.1).pos) * (b p.1).mass) = 0 := by
    ring
  rw [hz, zero_smul]

/-- With a single body there are no pairs at all. -/
lemma pairSet_one : pairSet 1 = ∅ := by decide

/-- Modelled acceleration of a lone body is exactly zero. -/
lemma computeAccels_single (scaledG eps : ℝ) (b : Fin 1 → Body) :
    computeAccels scaledG eps b = 0 := by
  unfold computeAccels
  rw [pairSet_one]
  simp

/-- Pair accumulation reads only masses and positions, so bodies agreeing on
those get the same acceleration buffer. -/
lemma computeAccels_congr {n : ℕ} (scaledG eps : ℝ) (b c : Fin n → Body)
    (h : ∀ i, (b i).mass = (c i).mass ∧ (b i).pos = (c i).pos) :
    computeAccels scaledG eps b = computeAccels scaledG eps c := by
  unfold computeAccels
  refine Finset.sum_congr rfl ?_
  intro p _
  funext i
  simp only [pairContrib, (h p.1).1, (h p.1).2, (h p.2).1, (h p.2).2]

/-- Every step stores exactly the acceleration of its output positions, since
the final half kick changes velocities only. -/
lemma step_accel_eq {n : ℕ} (scaledG eps dt : ℝ) (s : SimState n) :
    (step scaledG eps dt s).accel = computeAccels scaledG eps (step scaledG eps dt s).bodies := by
  apply computeAccels_congr
  intro i
  exact ⟨rfl, rfl⟩

/-- Stepping from any state re-establishes the leapfrog invariant. -/
lemma goodState_step {n : ℕ} (scaledG eps dt : ℝ) (s : SimState n) :
    goodState scaledG eps (step scaledG eps dt s) :=
  step_accel_eq scaledG eps dt s

/-- Masses are never modified by a step. -/
lemma step_mass {n : ℕ} (scaledG eps dt : ℝ) (s : SimState n) (i : Fin n) :
    ((step scaledG eps dt s).bodies i).mass = (s.bodies i).mass := rfl

/-- One leapfrog step leaves the total momentum unchanged whenever the
carried buffer is the true acceleration of the current positions. -/
lemma totalMomentum_step {n : ℕ} (scaledG eps dt : ℝ) (s : SimState n)
    (h : goodState scaledG eps s) :
    totalMomentum (step scaledG eps dt s) = totalMomentum s := by
  classical
  unfold totalMomentum
  have hvel : ∀ i, ((step scaledG eps dt s).bodies i).vel =
      (s.bodies i).vel + (dt / 2) • s.accel i +
        (dt / 2) • computeAccels scaledG eps (driftBodies dt s) i := fun i => rfl
  have hmassd : ∀ i, (driftBodies dt s i).mass = (s.bodies i).mass := fun i => rfl
  have hexpand : ∀ i, ((step scaledG eps dt s).bodies i).mass •
      ((step scaledG eps dt s).bodies i).vel =
      (s.bodies i).mass • (s.bodies i).vel +
      (dt / 2) • ((s.bodies i).mass • s.accel i) +
      (dt / 2) • ((driftBodies dt s i).mass • computeAccels scaledG eps (driftBodies dt s) i) := by
    intro i
    rw [step_mass, hvel i, smul_add, smul_add, smul_comm ((s.bodies i).mass) (dt / 2),
      smul_comm ((s.bodies i).mass) (dt / 2), hmassd i]
  rw [Finset.sum_congr rfl fun i _ => hexpand i, Finset.sum_add_distrib,
    Finset.sum_add_distrib, ← Finset.smul_sum, ← Finset.smul_sum]
  have hzero1 : (∑ i, (s.bodies i).mass • s.accel i) = 0 := by
    rw [show s.accel = computeAccels scaledG eps s.bodies from h]
    exact mass_weighted_accels_zero scaledG eps s.bodies
  have hzero2 : (∑ i, (driftBodies dt s i).mass •
      computeAccels scaledG eps (driftBodies dt s) i) = 0 :=
    mass_weighted_accels_zero scaledG eps (driftBodies dt s)
  rw [hzero1, hzero2, smul_zero, add_zero, add_zero]

/-- Momentum is unchanged across an arbitrary run started from a state
satisfying the leapfrog invariant. -/
lemma totalMomentum_runSteps {n : ℕ} (scaledG eps : ℝ) (dts : List ℝ) (s : SimState n)
    (h : goodState scaledG eps s) :
    totalMomentum (runSteps scaledG eps dts s) = totalMomentum s := by
  induction dts generalizing s with
  | nil => rfl
  | cons d rest ih =>
    have hrun : runSteps scaledG eps (d :: rest) s =
        runSteps scaledG eps rest (step scaledG eps d s) := rfl
    rw [hrun, ih (step scaledG eps d s) (goodState_step scaledG eps d s),
      totalMomentum_step scaledG eps d s h]

/-- Iterating from an invariant single-body state, the carried buffer is zero
at every step. -/
lemma stepN_accel_single (scaledG eps dt : ℝ) (s : SimState 1)
    (h : goodState scaledG eps s) (k : ℕ) :
    (stepN scaledG eps dt k s).accel = 0 := by
  cases k with
  | zero =>
    rw [show stepN scaledG eps dt 0 s = s from rfl, h]
    exact computeAccels_single scaledG eps s.bodies
  | succ m =>
    rw [show stepN scaledG eps dt (m + 1) s = step scaledG eps dt (stepN scaledG eps dt m s)
      from rfl, step_accel_eq]
    exact computeAccels_single scaledG eps _

/-- One step of a single-body state with zero carried acceleration moves the
body by dt times its velocity and keeps the velocity. -/
lemma step_single_inertial (scaledG eps dt : ℝ) (t : SimState 1) (ha : t.accel = 0) :
    ((step scaledG eps dt t).bodies 0).pos = (t.bodies 0).pos + dt • (t.bodies 0).vel ∧
    ((step scaledG eps dt t).bodies 0).vel = (t.bodies 0).vel := by
  have hhk : halfKickVel dt t 0 = (t.bodies 0).vel := by
    rw [halfKickVel, ha]
    simp
  constructor
  · show (t.bodies 0).pos + dt • halfKickVel dt t 0 = _
    rw [hhk]
  · show halfKickVel dt t 0 + (dt / 2) • computeAccels scaledG eps (driftBodies dt t) 0 = _
    rw [hhk, show computeAccels scaledG eps (driftBodies dt t) = 0 from
      computeAccels_single scaledG eps _]
    simp

/-- Iterated single-body motion is linear in the number of steps. -/
lemma stepN_single (scaledG eps dt : ℝ) (s : SimState 1)
    (h : goodState scaledG eps s) (k : ℕ) :
    ((stepN scaledG eps dt k s).bodies 0).pos =
      (s.bodies 0).pos + ((k : ℝ) * dt) • (s.bodies 0).vel ∧
    ((stepN scaledG eps dt k s).bodies 0).vel = (s.bodies 0).vel := by
  induction k with
  | zero => simp [stepN]
  | succ m ih =>
    have haccel : (stepN scaledG eps dt m s).accel = 0 :=
      stepN_accel_single scaledG eps dt s h m
    have hstep := step_single_inertial scaledG eps dt (stepN scaledG eps dt m s) haccel
    have hsucc : stepN scaledG eps dt (m + 1) s =
        step scaledG eps dt (stepN scaledG eps dt m s) := rfl
    rw [hsucc]
    constructor
    · rw [hstep.1, ih.1, ih.2, add_assoc, ← add_smul]
      congr 2
      push_cast
      ring
    · rw [hstep.2, ih.2]

/-- Concrete single-body state satisfies the leapfrog invariant. -/
lemma oneBodyState_good (scaledG eps : ℝ) : goodState scaledG eps oneBodyState := by
  rw [goodState, computeAccels_single scaledG eps oneBodyState.bodies]
  rfl

/-- Concrete two-body state satisfies the leapfrog invariant: the separations
vanish, so every pair contribution is the zero vector. -/
lemma twoBodyState_good (scaledG eps : ℝ) : goodState scaledG eps twoBodyState := by
  have hz : ∀ p ∈ pairSet 2, pairContrib scaledG eps twoBodyState.bodies p = 0 := by
    intro p _
    funext i
    have hd : (twoBodyState.bodies p.2).pos - (twoBodyState.bodies p.1).pos = 0 := by
      show (0 : Vec3) - 0 = 0
      simp
    simp [pairContrib, hd]
  rw [goodState, computeAccels, Finset.sum_congr rfl hz]
  rw [Finset.sum_const, smul_zero]
  rfl

/-- Bound for the elliptically modulated coordinate: cosine times radius
times a factor between 1 - c and 1 + c. -/
lemma ellipse_bound (ang u r c : ℝ) (hr : 0 ≤ r) (hc : 0 ≤ c) :
    |Real.cos ang * r * (1 + c * Real.sin u)| ≤ (1 + c) * r := by
  rw [abs_mul, abs_mul]
  have h1 : |Real.cos ang| ≤ 1 := Real.abs_cos_le_one ang
  have h2 : |r| = r := abs_of_nonneg hr
  have h3 : |1 + c * Real.sin u| ≤ 1 + c := by
    calc |1 + c * Real.sin u| ≤ |(1 : ℝ)| + |c * Real.sin u| := abs_add _ _
    _ = 1 + c * |Real.sin u| := by rw [abs_one, abs_mul, abs_of_nonneg hc]
    _ ≤ 1 + c * 1 := by
        have hs := Real.abs_sin_le_one u
        nlinarith
    _ = 1 + c := by ring
  rw [h2]
  have he0 : (0 : ℝ) ≤ |1 + c * Real.sin u| := abs_nonneg _
  calc |Real.cos ang| * r * |1 + c * Real.sin u| ≤ 1 * r * |1 + c * Real.sin u| :=
      mul_le_mul_of_nonneg_right (mul_le_mul_of_nonneg_right h1 hr) he0
  _ = r * |1 + c * Real.sin u| := by ring
  _ ≤ r * (1 + c) := mul_le_mul_of_nonneg_left h3 hr
  _ = (1 + c) * r := by ring

/-- Bound for the circular coordinate: sine times radius. -/
lemma sin_mul_bound (ang r : ℝ) (hr : 0 ≤ r) : |Real.sin ang * r| ≤ r := by
  rw [abs_mul, abs_of_nonneg hr]
  have h1 : |Real.sin ang| ≤ 1 := Real.abs_sin_le_one ang
  nlinarith [abs_nonneg (Real.sin ang)]

/-- Bound for the wobble coordinate: amplitude times sine. -/
lemma amp_sin_bound (amp u : ℝ) (ha : 0 ≤ amp) : |amp * Real.sin u| ≤ amp := by
  rw [abs_mul, abs_of_nonneg ha]
  have h1 : |Real.sin u| ≤ 1 := Real.abs_sin_le_one u
  nlinarith [abs_nonneg (Real.sin u)]

/-- Success of a single validation is exactly the three spec conditions. -/
lemma validateConfig_ok (c : OrbitalConfig) :
    validateConfig c = Except.ok () ↔
      (0 < c.massFrac ∧ 0 < c.periodYears ∧ c.eccentricity < 1) := by
  unfold validateConfig
  split_ifs with h1 h2 h3
  · exact iff_of_false (by simp) fun hc => absurd hc.1 (not_lt.mpr h1)
  · exact iff_of_false (by simp) fun hc => absurd hc.2.1 (not_lt.mpr h2)
  · exact iff_of_false (by simp) fun hc => absurd h3 (not_le.mpr hc.2.2)
  · exact iff_of_true rfl ⟨not_le.mp h1, not_le.mp h2, not_le.mp h3⟩

/-- Any successful initialization returns exactly the configured masses and
implies validity of every entry. -/
lemma initMasses_ok_inv (cs : List OrbitalConfig) (l : List ℚ)
    (h : initMasses cs = Except.ok l) :
    l = cs.map OrbitalConfig.massFrac ∧
      ∀ c ∈ cs, 0 < c.massFrac ∧ 0 < c.periodYears ∧ c.eccentricity < 1 := by
  induction cs generalizing l with
  | nil =>
    rw [initMasses] at h
    refine ⟨?_, by simp⟩
    cases h
    rfl
  | cons c rest ih =>
    rw [initMasses] at h
    cases hval : validateConfig c with
    | error e =>
      rw [hval] at h
      exact absurd h (by simp)
    | ok u =>
      rw [hval] at h
      cases hrest : initMasses rest with
      | error e =>
        rw [hrest] at h
        exact absurd h (by simp)
      | ok ms =>
        rw [hrest] at h
        change Except.ok (c.massFrac :: ms) = Except.ok l at h
        cases h
        obtain ⟨hm, hall⟩ := ih ms hrest
        have hc : 0 < c.massFrac ∧ 0 < c.periodYears ∧ c.eccentricity < 1 :=
          (validateConfig_ok c).mp hval
        refine ⟨by rw [hm]; rfl, ?_⟩
        intro d hd
        rcases List.mem_cons.mp hd with hd | hd
        · rw [hd]
          exact hc
        · exact hall d hd

/-- Validity of every entry makes initialization succeed with the configured
masses. -/
lemma initMasses_ok_of_valid (cs : List OrbitalConfig)
    (h : ∀ c ∈ cs, 0 < c.massFrac ∧ 0 < c.periodYears ∧ c.eccentricity < 1) :
    initMasses cs = Except.ok (cs.map OrbitalConfig.massFrac) := by
  induction cs with
  | nil => rfl
  | cons c rest ih =>
    have hv : validateConfig c = Except.ok () :=
      (validateConfig_ok c).mpr (h c (List.mem_cons_self c rest))
    have hr : initMasses rest = Except.ok (rest.map OrbitalConfig.massFrac) :=
      ih fun d hd => h d (List.mem_cons_of_mem c hd)
    rw [initMasses, hv, hr]
    rfl

/-- C1: for every body and every sub-step with timestep dt, the state update
advances velocity and position by the kick-drift-kick sequence: a half kick
by the acceleration at the start of the step, a drift of the position by the
half-kicked velocity, a recomputation of the acceleration at the new
positions, a second half kick by it, and the recomputed acceleration is
carried (stored) into the next step. -/
theorem C1_step_is_kick_drift_kick {n : ℕ} (scaledG eps dt : ℝ) (s : SimState n)
    (h : goodState scaledG eps s) :
    (∀ i,
      ((step scaledG eps dt s).bodies i).pos =
        (s.bodies i).pos +
          dt • ((s.bodies i).vel + (dt / 2) • computeAccels scaledG eps s.bodies i) ∧
      ((step scaledG eps dt s).bodies i).vel =
        ((s.bodies i).vel + (dt / 2) • computeAccels scaledG eps s.bodies i) +
          (dt / 2) • computeAccels scaledG eps (step scaledG eps dt s).bodies i) ∧
    (step scaledG eps dt s).accel =
      computeAccels scaledG eps (step scaledG eps dt s).bodies := by
  have hdrift : computeAccels scaledG eps (driftBodies dt s) =
      computeAccels scaledG eps (step scaledG eps dt s).bodies :=
    computeAccels_congr scaledG eps _ _ fun j => ⟨rfl, rfl⟩
  refine ⟨fun i => ⟨?_, ?_⟩, step_accel_eq scaledG eps dt s⟩
  · show (s.bodies i).pos + dt • halfKickVel dt s i = _
    rw [halfKickVel, h]
  · show halfKickVel dt s i +
      (dt / 2) • computeAccels scaledG eps (driftBodies dt s) i = _
    rw [halfKickVel, h, hdrift]

/-- Closed instance of C1 at a concrete single-body state. -/
theorem C1_step_is_kick_drift_kick_witness :
    goodState 1 0 oneBodyState ∧
    ((∀ i,
      ((step 1 0 2 oneBodyState).bodies i).pos =
        (oneBodyState.bodies i).pos +
          (2 : ℝ) • ((oneBodyState.bodies i).vel +
            ((2 : ℝ) / 2) • computeAccels 1 0 oneBodyState.bodies i) ∧
      ((step 1 0 2 oneBodyState).bodies i).vel =
        ((oneBodyState.bodies i).vel +
            ((2 : ℝ) / 2) • computeAccels 1 0 oneBodyState.bodies i) +
          ((2 : ℝ) / 2) • computeAccels 1 0 (step 1 0 2 oneBodyState).bodies i) ∧
    (step 1 0 2 oneBodyState).accel =
      computeAccels 1 0 (step 1 0 2 oneBodyState).bodies) :=
  ⟨oneBodyState_good 1 0,
    C1_step_is_kick_drift_kick 1 0 2 oneBodyState (oneBodyState_good 1 0)⟩

/-- C2: the force evaluation yields, for every body i, the vector sum over
every other body j of scaledG times mass j times the separation vector,
scaled by the softened inverse-cube factor of the separation, even though it
is accumulated symmetrically per unordered pair in one pass. -/
theorem C2_accel_is_sum_of_pairwise_pulls {n : ℕ} (scaledG eps : ℝ) (b : Fin n → Body)
    (i : Fin n) :
    computeAccels scaledG eps b i =
      ∑ j ∈ Finset.univ.erase i,
        (scaledG * (b j).mass * softFactor eps ((b j).pos - (b i).pos)) •
          ((b j).pos - (b i).pos) :=
  computeAccels_apply scaledG eps b i

/-- C3: the total momentum after any number of integration steps equals its
initial value (exactly, in the real-number model). -/
theorem C3_total_momentum_conserved {n : ℕ} (scaledG eps : ℝ) (dts : List ℝ)
    (s : SimState n) (h : goodState scaledG eps s) :
    totalMomentum (runSteps scaledG eps dts s) = totalMomentum s :=
  totalMomentum_runSteps scaledG eps dts s h

/-- Closed instance of C3 at a concrete two-body state over three steps. -/
theorem C3_total_momentum_conserved_witness :
    goodState 1 1 twoBodyState ∧
    totalMomentum (runSteps 1 1 [1, 2, 3] twoBodyState) = totalMomentum twoBodyState :=
  ⟨twoBodyState_good 1 1,
    C3_total_momentum_conserved 1 1 [1, 2, 3] twoBodyState (twoBodyState_good 1 1)⟩

/-- C4: a lone body has exactly zero acceleration at every step, and over any
number of steps its position changes linearly in simulated time with constant
velocity. -/
theorem C4_single_body_inertial (scaledG eps dt : ℝ) (s : SimState 1)
    (h : goodState scaledG eps s) (k : ℕ) :
    computeAccels scaledG eps (stepN scaledG eps dt k s).bodies = 0 ∧
    (stepN scaledG eps dt k s).accel = 0 ∧
    ((stepN scaledG eps dt k s).bodies 0).pos =
      (s.bodies 0).pos + ((k : ℝ) * dt) • (s.bodies 0).vel ∧
    ((stepN scaledG eps dt k s).bodies 0).vel = (s.bodies 0).vel :=
  ⟨computeAccels_single scaledG eps _,
    stepN_accel_single scaledG eps dt s h k,
    (stepN_single scaledG eps dt s h k).1,
    (stepN_single scaledG eps dt s h k).2⟩

/-- Closed instance of C4 at a concrete single-body state after five steps. -/
theorem C4_single_body_inertial_witness :
    goodState 1 0 oneBodyState ∧
    (computeAccels 1 0 (stepN 1 0 3 5 oneBodyState).bodies = 0 ∧
    (stepN 1 0 3 5 oneBodyState).accel = 0 ∧
    ((stepN 1 0 3 5 oneBodyState).bodies 0).pos =
      (oneBodyState.bodies 0).pos + (((5 : ℕ) : ℝ) * 3) • (oneBodyState.bodies 0).vel ∧
    ((stepN 1 0 3 5 oneBodyState).bodies 0).vel = (oneBodyState.bodies 0).vel) :=
  ⟨oneBodyState_good 1 0,
    C4_single_body_inertial 1 0 3 oneBodyState (oneBodyState_good 1 0) 5⟩

/-- C5: the state of a secondary body is the vector sum of the primary state
and a local state: position is the primary position plus the local offset,
velocity is the primary velocity plus the local tangential velocity; the
local velocity is perpendicular to the local offset, the offset has length r
and the local speed is 2 pi r / T (stated via squared norms). -/
theorem C5_secondary_frame_composition (primary : Body) (m r T : ℝ) :
    (initSecondary primary m r T).pos = primary.pos + localOffset r ∧
    (initSecondary primary m r T).vel = primary.vel + localOrbitVel r T ∧
    (initSecondary primary m r T).mass = m ∧
    dot (localOffset r) (localOrbitVel r T) = 0 ∧
    dot (localOffset r) (localOffset r) = r ^ 2 ∧
    dot (localOrbitVel r T) (localOrbitVel r T) = (2 * Real.pi * r / T) ^ 2 := by
  refine ⟨rfl, rfl, rfl, ?_, ?_, ?_⟩
  · rw [dot, Fin.sum_univ_three]
    simp [localOffset, localOrbitVel]
  · rw [dot, Fin.sum_univ_three]
    simp [localOffset]
    ring
  · rw [dot, Fin.sum_univ_three]
    simp [localOrbitVel]
    ring

/-- C6: every rendering tick yields at least one sub-step, even for
arbitrarily small elapsed time, the per-sub-step timestep is the configured
base timestep, and subStepCount * dtPerSubStep * speedMultiplier
approximates the elapsed time scaled by the acceleration factor to within
one sub-step quantum of simulated time. -/
theorem C6_frame_stepper_substeps (cfg : StepperConfig) (elapsed : ℚ)
    (hdt : 0 < cfg.baseDt) (hmul : 0 < cfg.speedMultiplier)
    (hacc : 0 ≤ cfg.accelFactor) (he : 0 ≤ elapsed) :
    1 ≤ (frameStepper cfg elapsed).1 ∧
    (frameStepper cfg elapsed).2 = cfg.baseDt ∧
    |((frameStepper cfg elapsed).1 : ℚ) * (frameStepper cfg elapsed).2 * cfg.speedMultiplier -
        elapsed * cfg.accelFactor| ≤ cfg.baseDt * cfg.speedMultiplier := by
  have hq : 0 < cfg.baseDt * cfg.speedMultiplier := mul_pos hdt hmul
  refine ⟨le_max_left 1 _, rfl, ?_⟩
  set q := cfg.baseDt * cfg.speedMultiplier with hqdef
  set t := elapsed * cfg.accelFactor / q with htdef
  have ht0 : 0 ≤ t := div_nonneg (mul_nonneg he hacc) hq.le
  have htq : t * q = elapsed * cfg.accelFactor := div_mul_cancel₀ _ (ne_of_gt hq)
  have hfst : (frameStepper cfg elapsed).1 = max 1 ⌈t⌉₊ := rfl
  have hsnd : (frameStepper cfg elapsed).2 = cfg.baseDt := rfl
  rw [hfst, hsnd, mul_assoc, ← hqdef, ← htq]
  by_cases hz : ⌈t⌉₊ = 0
  · have ht00 : t ≤ 0 := Nat.ceil_eq_zero.mp hz
    have hteq : t = 0 := le_antisymm ht00 ht0
    rw [hz, hteq]
    simp
    rw [abs_of_nonneg hq.le]
  · have h1le : 1 ≤ ⌈t⌉₊ := Nat.one_le_iff_ne_zero.mpr hz
    rw [max_eq_right h1le]
    have hle : t ≤ (⌈t⌉₊ : ℚ) := Nat.le_ceil t
    have hlt : (⌈t⌉₊ : ℚ) < t + 1 := Nat.ceil_lt_add_one ht0
    have hnn : 0 ≤ (⌈t⌉₊ : ℚ) * q - t * q := by nlinarith
    rw [abs_of_nonneg hnn]
    nlinarith

/-- Closed instance of C6 at a concrete configuration and elapsed time. -/
theorem C6_frame_stepper_substeps_witness :
    ((0 : ℚ) < 1 / 50 ∧ (0 : ℚ) < 2 ∧ (0 : ℚ) ≤ 3 ∧ (0 : ℚ) ≤ 1 / 10) ∧
    (1 ≤ (frameStepper { baseDt := 1 / 50, speedMultiplier := 2, accelFactor := 3 } (1 / 10)).1 ∧
    (frameStepper { baseDt := 1 / 50, speedMultiplier := 2, accelFactor := 3 } (1 / 10)).2 =
      (1 / 50 : ℚ) ∧
    |((frameStepper { baseDt := 1 / 50, speedMultiplier := 2, accelFactor := 3 } (1 / 10)).1 : ℚ) *
        (frameStepper { baseDt := 1 / 50, speedMultiplier := 2, accelFactor := 3 } (1 / 10)).2 * 2 -
        (1 / 10) * 3| ≤ (1 / 50) * 2) :=
  ⟨⟨by norm_num, by norm_num, by norm_num, by norm_num⟩,
    C6_frame_stepper_substeps { baseDt := 1 / 50, speedMultiplier := 2, accelFactor := 3 }
      (1 / 10) (by norm_num) (by norm_num) (by norm_num) (by norm_num)⟩

/-- C7: initialization succeeds exactly on valid configurations (positive
masses, positive periods, eccentricities below one) and then keeps every
configured mass unchanged; any configuration violating one of these is
rejected with a descriptive error message, never silently clamped. -/
theorem C7_config_validation (cs : List OrbitalConfig) :
    (initMasses cs = Except.ok (cs.map OrbitalConfig.massFrac) ↔
      ∀ c ∈ cs, 0 < c.massFrac ∧ 0 < c.periodYears ∧ c.eccentricity < 1) ∧
    ((¬ ∀ c ∈ cs, 0 < c.massFrac ∧ 0 < c.periodYears ∧ c.eccentricity < 1) →
      ∃ msg, initMasses cs = Except.error msg) := by
  constructor
  · constructor
    · intro h
      exact (initMasses_ok_inv cs _ h).2
    · exact initMasses_ok_of_valid cs
  · intro hbad
    cases hres : initMasses cs with
    | ok l => exact absurd (initMasses_ok_inv cs l hres).2 hbad
    | error e => exact ⟨e, rfl⟩

/-- Closed instance of C7: a zero-mass entry is rejected with an error. -/
theorem C7_config_validation_witness :
    (¬ ∀ c ∈ [rogueConfig], 0 < c.massFrac ∧ 0 < c.periodYears ∧ c.eccentricity < 1) ∧
    ∃ msg, initMasses [rogueConfig] = Except.error msg :=
  ⟨by decide, (C7_config_validation [rogueConfig]).2 (by decide)⟩

/-- C8: the per-step update is a pure function of the current state and the
timestep, so two runs of the same step sequence from identical initial
states produce identical final states and identical trajectories. -/
theorem C8_determinism {n : ℕ} (scaledG eps : ℝ) (dts : List ℝ) (s t : SimState n)
    (h : s = t) :
    runSteps scaledG eps dts s = runSteps scaledG eps dts t ∧
    trajectory scaledG eps dts s = trajectory scaledG eps dts t := by
  subst h
  exact ⟨rfl, rfl⟩

/-- Closed instance of C8 at a concrete state and step sequence. -/
theorem C8_determinism_witness :
    oneBodyState = oneBodyState ∧
    (runSteps 1 0 [1, 2] oneBodyState = runSteps 1 0 [1, 2] oneBodyState ∧
    trajectory 1 0 [1, 2] oneBodyState = trajectory 1 0 [1, 2] oneBodyState) :=
  ⟨rfl, C8_determinism 1 0 [1, 2] oneBodyState oneBodyState rfl⟩

/-- C9: each trail update advances the index to (previousIndex + 1) mod
trailLength, which always stays below trailLength, writes the new position
into exactly the one 3-component slot at that index, and leaves every other
slot of the buffer unchanged. -/
theorem C9_trail_circular_buffer (t : TrailState) (x y z : ℚ) :
    (writeTrail t x y z).index = (t.index + 1) % trailLength ∧
    (writeTrail t x y z).index < trailLength ∧
    (writeTrail t x y z).positions ((writeTrail t x y z).index * 3) = x ∧
    (writeTrail t x y z).positions ((writeTrail t x y z).index * 3 + 1) = y ∧
    (writeTrail t x y z).positions ((writeTrail t x y z).index * 3 + 2) = z ∧
    ∀ k : ℕ, k ≠ (writeTrail t x y z).index * 3 →
      k ≠ (writeTrail t x y z).index * 3 + 1 →
      k ≠ (writeTrail t x y z).index * 3 + 2 →
      (writeTrail t x y z).positions k = t.positions k := by
  have hidx : (writeTrail t x y z).index = (t.index + 1) % trailLength := rfl
  have hlt : (writeTrail t x y z).index < trailLength := by
    rw [hidx]
    exact Nat.mod_lt _ (by norm_num [trailLength])
  have hpos : (writeTrail t x y z).positions =
      Function.update (Function.update (Function.update t.positions
        ((writeTrail t x y z).index * 3) x) ((writeTrail t x y z).index * 3 + 1) y)
        ((writeTrail t x y z).index * 3 + 2) z := rfl
  refine ⟨hidx, hlt, ?_, ?_, ?_, ?_⟩
  · rw [hpos, Function.update_noteq (by omega), Function.update_noteq (by omega),
      Function.update_same]
  · rw [hpos, Function.update_noteq (by omega), Function.update_same]
  · rw [hpos, Function.update_same]
  · intro k h0 h1 h2
    rw [hpos, Function.update_noteq h2, Function.update_noteq h1, Function.update_noteq h0]

/-- Closed instance of C9 at a concrete trail state. -/
theorem C9_trail_circular_buffer_witness :
    (writeTrail { positions := fun _ => 0, index := 41 } 1 2 3).index = 42 ∧
    (writeTrail { positions := fun _ => 0, index := 41 } 1 2 3).positions 126 = 1 ∧
    (writeTrail { positions := fun _ => 0, index := 41 } 1 2 3).positions 0 = 0 := by
  have h := C9_trail_circular_buffer { positions := fun _ => 0, index := 41 } 1 2 3
  have hidx : (writeTrail { positions := fun _ => 0, index := 41 } 1 2 3).index = 42 := by
    rw [h.1]
    decide
  refine ⟨hidx, ?_, ?_⟩
  · have hx := h.2.2.1
    rw [hidx] at hx
    norm_num at hx
    exact hx
  · have hk := h.2.2.2.2.2 0 (by rw [hidx]; decide) (by rw [hidx]; decide) (by rw [hidx]; decide)
    exact hk

/-- C10: after every finite sequence of updates with non-negative timesteps,
the planet coordinates stay inside fixed configuration bounds: in the
planets variant |x| is at most 1.1 radius, |z| at most radius and |y| at
most the wobble amplitude 12; in the moon-system variant of src/main.js the
factor is 1.18 and the amplitude 18; in src/unnamed/part_000 the factor is
1.1 and the amplitude 14.  Positions never grow unbounded over iterations. -/
theorem C10_positions_bounded (speed irr radius idx si tiltPhase : ℝ)
    (dts : List ℝ) (st : PlanetKin) (hr : 0 ≤ radius) (_hdts : ∀ d ∈ dts, 0 ≤ d) :
    |planetsX radius idx (planetRun speed irr dts st)| ≤ (11 / 10) * radius ∧
    |planetsZ radius (planetRun speed irr dts st)| ≤ radius ∧
    |planetsY idx (planetRun speed irr dts st)| ≤ 12 ∧
    |moonSysX radius si (planetRun speed irr dts st)| ≤ (118 / 100) * radius ∧
    |moonSysZ radius (planetRun speed irr dts st)| ≤ radius ∧
    |moonSysY tiltPhase (planetRun speed irr dts st)| ≤ 18 ∧
    |part0X radius si (planetRun speed irr dts st)| ≤ (11 / 10) * radius ∧
    |part0Z radius (planetRun speed irr dts st)| ≤ radius ∧
    |part0Y tiltPhase (planetRun speed irr dts st)| ≤ 14 := by
  refine ⟨?_, ?_, ?_, ?_, ?_, ?_, ?_, ?_, ?_⟩
  · calc |planetsX radius idx (planetRun speed irr dts st)| ≤ (1 + 1 / 10) * radius :=
        ellipse_bound _ _ radius (1 / 10) hr (by norm_num)
    _ = (11 / 10) * radius := by norm_num
  · exact sin_mul_bound _ radius hr
  · exact amp_sin_bound 12 _ (by norm_num)
  · calc |moonSysX radius si (planetRun speed irr dts st)| ≤ (1 + 18 / 100) * radius :=
        ellipse_bound _ _ radius (18 / 100) hr (by norm_num)
    _ = (118 / 100) * radius := by norm_num
  · exact sin_mul_bound _ radius hr
  · exact amp_sin_bound 18 _ (by norm_num)
  · calc |part0X radius si (planetRun speed irr dts st)| ≤ (1 + 1 / 10) * radius :=
        ellipse_bound _ _ radius (1 / 10) hr (by norm_num)
    _ = (11 / 10) * radius := by norm_num
  · exact sin_mul_bound _ radius hr
  · exact amp_sin_bound 14 _ (by norm_num)

/-- Closed instance of C10 for the Earth configuration over two frames. -/
theorem C10_positions_bounded_witness :
    ((0 : ℝ) ≤ 120 ∧ ∀ d ∈ [(16 : ℝ), 17], 0 ≤ d) ∧
    (|planetsX 120 2 (planetRun 1 (Real.sqrt 2.6) [16, 17] { angle := 0, timeG := 0 })| ≤
      (11 / 10) * 120 ∧
    |planetsZ 120 (planetRun 1 (Real.sqrt 2.6) [16, 17] { angle := 0, timeG := 0 })| ≤ 120 ∧
    |planetsY 2 (planetRun 1 (Real.sqrt 2.6) [16, 17] { angle := 0, timeG := 0 })| ≤ 12 ∧
    |moonSysX 120 2 (planetRun 1 (Real.sqrt 2.6) [16, 17] { angle := 0, timeG := 0 })| ≤
      (118 / 100) * 120 ∧
    |moonSysZ 120 (planetRun 1 (Real.sqrt 2.6) [16, 17] { angle := 0, timeG := 0 })| ≤ 120 ∧
    |moonSysY 0.9 (planetRun 1 (Real.sqrt 2.6) [16, 17] { angle := 0, timeG := 0 })| ≤ 18 ∧
    |part0X 120 2 (planetRun 1 (Real.sqrt 2.6) [16, 17] { angle := 0, timeG := 0 })| ≤
      (11 / 10) * 120 ∧
    |part0Z 120 (planetRun 1 (Real.sqrt 2.6) [16, 17] { angle := 0, timeG := 0 })| ≤ 120 ∧
    |part0Y 0.9 (planetRun 1 (Real.sqrt 2.6) [16, 17] { angle := 0, timeG := 0 })| ≤ 14) :=
  ⟨⟨by norm_num, by
      intro d hd
      rcases List.mem_cons.mp hd with h | h
      · rw [h]; norm_num
      · rw [List.mem_singleton.mp h]; norm_num⟩,
    C10_positions_bounded 1 (Real.sqrt 2.6) 120 2 2 0.9 [16, 17] { angle := 0, timeG := 0 }
      (by norm_num)
      (by
        intro d hd
        rcases List.mem_cons.mp hd with h | h
        · rw [h]; norm_num
        · rw [List.mem_singleton.mp h]; norm_num)⟩

end SolarDance
